import Mathlib

/-!
VideoApplication: the native bridge `stringFromJNI`.

A shallow embedding of `app/src/main/cpp/native-lib.cpp`, whose one function

    jstring Java_com_tanosys_videoapplication_VideoPlayActivity_stringFromJNI(JNIEnv* env, jobject)

has the body

    std::string hello = "Hello from C++";
    return env->NewStringUTF(hello.c_str());

Bytes (`char`) are natural numbers below 256.  A `const char*` is modelled by
the bytes stored from the pointed-to address on; a C-string reader sees the
bytes in front of the first NUL.  `JNIEnv` is the function table of `jni.h`.
-/

namespace VideoApplication

/-! ## C strings and `std::string` -/

/-- The memory a `const char*` points to: the bytes from that address on. -/
abbrev CString := List Nat

/-- The string literal `"Hello from C++"` of line 9, as the array of `char`
the compiler emits for it: the fourteen characters and the terminating NUL. -/
def helloLiteral : CString :=
  ("Hello from C++".toList.map Char.toNat) ++ [0]

/-- What a reader of a NUL-terminated string sees: the bytes in front of the
first NUL (`strlen` many of them). -/
def cstrBytes (p : CString) : List Nat :=
  p.takeWhile (fun b => b != 0)

/-- The `std::string` value: its characters (the terminator is not part of it). -/
structure std_string where
  data : List Nat
deriving DecidableEq

/-- The constructor `std::string(const char*)`: copies the characters in front of the
first NUL. -/
def std_string.ofCStr (p : CString) : std_string :=
  ⟨cstrBytes p⟩

/-- The member `std::string::c_str()`: a pointer to the characters followed by a NUL. -/
def std_string.c_str (s : std_string) : CString :=
  s.data ++ [0]

/-- The member `std::string::size()`. -/
def std_string.size (s : std_string) : Nat :=
  s.data.length

/-! ## The JNI side -/

/-- A `jobject`: a nullable reference into the Java heap (`none` is `NULL`). -/
abbrev jobject := Option Nat

/-- A `jstring` is a `jobject`. -/
abbrev jstring := jobject

/-- The part of the function table behind `JNIEnv*` that the program uses.  The
runtime state behind the environment has type `σ`; a JNI function may read and
change it, and `NewStringUTF` may return `NULL`. -/
structure JNIEnv (σ : Type) where
  NewStringUTF : CString → σ → jstring × σ

/-- The state of the program: the static storage of the native library and the
state of the Java runtime behind the environment. -/
structure ProgramState (σ : Type) where
  globals : List Nat
  jvm : σ
deriving DecidableEq

/-- The function of `native-lib.cpp`: builds the local `hello` from the literal and
returns what `env->NewStringUTF(hello.c_str())` returns.  The `jobject` parameter is
unnamed in the source. -/
def Java_com_tanosys_videoapplication_VideoPlayActivity_stringFromJNI {σ : Type}
    (env : JNIEnv σ) (_this : jobject) (st : ProgramState σ) : jstring × ProgramState σ :=
  let hello : std_string := std_string.ofCStr helloLiteral
  let r := env.NewStringUTF hello.c_str st.jvm
  (r.1, { st with jvm := r.2 })

/-- The name the Java side uses for the bridge. -/
abbrev stringFromJNI {σ : Type} := @Java_com_tanosys_videoapplication_VideoPlayActivity_stringFromJNI σ

/-! ## Text encodings -/

/-- Whether `b` is a continuation byte `10xxxxxx`. -/
def isCont (b : Nat) : Bool :=
  0x80 ≤ b && b < 0xC0

/-- Decoder of the modified UTF-8 of the JNI specification into UTF-16 code units:
one byte `0x01..0x7F`; two bytes `110xxxxx 10xxxxxx` for `0` and `0x80..0x7FF`; three
bytes `1110xxxx 10xxxxxx 10xxxxxx` for `0x800..0xFFFF` (a supplementary character is
two surrogates of three bytes each).  Anything else, the byte `0` included, is
malformed. -/
def decodeMUTF8 : List Nat → Option (List Nat)
  | [] => some []
  | b0 :: rest =>
    if 0x01 ≤ b0 ∧ b0 ≤ 0x7F then
      (decodeMUTF8 rest).map (fun us => b0 :: us)
    else if 0xC0 ≤ b0 ∧ b0 ≤ 0xDF then
      match rest with
      | b1 :: rest1 =>
        let u := (b0 % 0x20) * 0x40 + b1 % 0x40
        if isCont b1 ∧ (u = 0 ∨ 0x80 ≤ u) then
          (decodeMUTF8 rest1).map (fun us => u :: us)
        else none
      | [] => none
    else if 0xE0 ≤ b0 ∧ b0 ≤ 0xEF then
      match rest with
      | b1 :: b2 :: rest2 =>
        let u := (b0 % 0x10) * 0x1000 + (b1 % 0x40) * 0x40 + b2 % 0x40
        if isCont b1 ∧ isCont b2 ∧ 0x800 ≤ u then
          (decodeMUTF8 rest2).map (fun us => u :: us)
        else none
      | _ => none
    else none

/-- Decoder of standard UTF-8 (RFC 3629) into Unicode scalar values: shortest form
only, no surrogates, nothing above `0x10FFFF`. -/
def decodeUTF8 : List Nat → Option (List Nat)
  | [] => some []
  | b0 :: rest =>
    if b0 ≤ 0x7F then
      (decodeUTF8 rest).map (fun cs => b0 :: cs)
    else if 0xC0 ≤ b0 ∧ b0 ≤ 0xDF then
      match rest with
      | b1 :: rest1 =>
        let c := (b0 % 0x20) * 0x40 + b1 % 0x40
        if isCont b1 ∧ 0x80 ≤ c then
          (decodeUTF8 rest1).map (fun cs => c :: cs)
        else none
      | [] => none
    else if 0xE0 ≤ b0 ∧ b0 ≤ 0xEF then
      match rest with
      | b1 :: b2 :: rest2 =>
        let c := (b0 % 0x10) * 0x1000 + (b1 % 0x40) * 0x40 + b2 % 0x40
        if isCont b1 ∧ isCont b2 ∧ 0x800 ≤ c ∧ ¬ (0xD800 ≤ c ∧ c ≤ 0xDFFF) then
          (decodeUTF8 rest2).map (fun cs => c :: cs)
        else none
      | _ => none
    else if 0xF0 ≤ b0 ∧ b0 ≤ 0xF4 then
      match rest with
      | b1 :: b2 :: b3 :: rest3 =>
        let c := (b0 % 0x08) * 0x40000 + (b1 % 0x40) * 0x1000 + (b2 % 0x40) * 0x40 + b3 % 0x40
        if isCont b1 ∧ isCont b2 ∧ isCont b3 ∧ 0x10000 ≤ c ∧ c ≤ 0x10FFFF then
          (decodeUTF8 rest3).map (fun cs => c :: cs)
        else none
      | _ => none
    else none

/-- UTF-16 encoding of a list of scalar values: one code unit below `0x10000`, a
surrogate pair from there on. -/
def toUTF16 : List Nat → List Nat
  | [] => []
  | c :: cs =>
    if c < 0x10000 then c :: toUTF16 cs
    else (0xD800 + (c - 0x10000) / 0x400) :: (0xDC00 + (c - 0x10000) % 0x400) :: toUTF16 cs

/-- The code points of a text. -/
def codePoints (s : String) : List Nat :=
  s.toList.map Char.toNat

/-! ## A reference Java runtime

`jni.h` and the runtime behind it are not part of the repository.  The definitions
below follow the JNI specification of `NewStringUTF`: it "constructs a new
`java.lang.String` object from an array of characters in modified UTF-8 encoding" and
"returns a local reference to a Java string object, or `NULL` if the string cannot be
constructed", throwing `OutOfMemoryError` "if the system runs out of memory". -/

/-- An object on the Java heap: an instance with its field values, or a
`java.lang.String` with its UTF-16 code units. -/
inductive HeapObject where
  | object (fields : List Int)
  | string (units : List Nat)
deriving DecidableEq

/-- The state of the reference runtime: the objects allocated so far (a reference is
an index into `heap`), the number of objects the heap has room for, and the class of
the pending exception, if any. -/
structure JVM where
  heap : List HeapObject
  capacity : Nat
  pending : Option String
deriving DecidableEq

/-- The JNI function `NewStringUTF` on the reference runtime: decodes the
NUL-terminated modified UTF-8 text and allocates a string for it; with no room left it
returns `NULL` and leaves an `OutOfMemoryError` pending.  The JNI specification says
nothing about malformed input; the reference runtime returns `NULL` for it. -/
def JVM.NewStringUTF (bytes : CString) (j : JVM) : jstring × JVM :=
  match decodeMUTF8 (cstrBytes bytes) with
  | some units =>
    if j.heap.length < j.capacity then
      (some j.heap.length, { j with heap := j.heap ++ [HeapObject.string units] })
    else
      (none, { j with pending := some "java.lang.OutOfMemoryError" })
  | none => (none, j)

/-- The environment of the reference runtime. -/
def jvmEnv : JNIEnv JVM :=
  ⟨JVM.NewStringUTF⟩

/-- The content of the string a reference denotes: `none` for `NULL`, for a dangling
reference and for a reference to an object that is no string. -/
def JVM.stringAt (j : JVM) (r : jstring) : Option (List Nat) :=
  match r with
  | none => none
  | some i =>
    match j.heap[i]? with
    | some (HeapObject.string units) => some units
    | _ => none

/-- An environment that behaves as `env` and also records the text of every
`NewStringUTF` call, oldest first. -/
def traced {σ : Type} (env : JNIEnv σ) : JNIEnv (σ × List (List Nat)) :=
  ⟨fun bytes s =>
    let r := env.NewStringUTF bytes s.1
    (r.1, (r.2, s.2 ++ [cstrBytes bytes]))⟩

/-- A sequence of calls of the bridge, each with its own environment and caller
object, run one after the other on the program state; the results, oldest first, and
the final state. -/
def runCalls {σ : Type} : List (JNIEnv σ × jobject) → ProgramState σ →
    List jstring × ProgramState σ
  | [], st => ([], st)
  | (env, this) :: calls, st =>
    let r := stringFromJNI env this st
    let rs := runCalls calls r.2
    (r.1 :: rs.1, rs.2)

/-- The JNI calls `NewStringUTF(text)` made one after the other, each through its own
environment, on the runtime state; the values returned, oldest first, and the final
state. -/
def newStrings {σ : Type} (text : CString) : List (JNIEnv σ) → σ → List jstring × σ
  | [], s => ([], s)
  | env :: envs, s =>
    let r := env.NewStringUTF text s
    let rs := newStrings text envs r.2
    (r.1 :: rs.1, rs.2)

/-! ## JNI symbol names -/

/-- The name of the symbol the library exports (line 6 of the source). -/
def exportedSymbol : String :=
  "Java_com_tanosys_videoapplication_VideoPlayActivity_stringFromJNI"

/-- The lower-case hexadecimal digit of `n < 16`. -/
def hexDigit (n : Nat) : Char :=
  if n < 10 then Char.ofNat (48 + n) else Char.ofNat (87 + n)

/-- The escape `_0xxxx` of the UTF-16 code unit `u`. -/
def escapeUnit (u : Nat) : List Char :=
  ['_', '0', hexDigit (u / 4096 % 16), hexDigit (u / 256 % 16), hexDigit (u / 16 % 16),
    hexDigit (u % 16)]

/-- The JNI mangling of one character of a name: ASCII letters and digits stand for
themselves, `.` becomes `_`, and `_`, `;`, `[` become `_1`, `_2`, `_3`; every other
character becomes `_0xxxx` for each of its UTF-16 code units. -/
def mangleChar (c : Char) : List Char :=
  if c.isAlphanum then [c]
  else if c = '.' then ['_']
  else if c = '_' then ['_', '1']
  else if c = ';' then ['_', '2']
  else if c = '[' then ['_', '3']
  else (toUTF16 [c.toNat]).flatMap escapeUnit

/-- The JNI mangling of a name. -/
def mangleName (name : List Char) : List Char :=
  name.flatMap mangleChar

/-- The JNI short name of the native method `meth` of the class `cls`. -/
def mangle (cls meth : String) : String :=
  String.mk ("Java_".toList ++ mangleName cls.toList ++ ['_'] ++ mangleName meth.toList)

/-- Whether a mangled name holds an escape sequence: an underscore followed by one of
the digits `0`, `1`, `2`, `3`. -/
def hasEscape : List Char → Bool
  | [] => false
  | c :: rest =>
    (c == '_' && (match rest with
      | d :: _ => d == '0' || d == '1' || d == '2' || d == '3'
      | [] => false)) || hasEscape rest

/-- The reading of one character of a mangled name that holds no escape sequence. -/
def unmangleChar (c : Char) : Char :=
  if c = '_' then '.' else c

/-- The class and the method a symbol without escape sequences stands for: after
`Java_`, the text behind the last underscore is the method, the text in front of it,
with `.` for `_`, the class. -/
def demangle (sym : String) : Option (String × String) :=
  if "Java_".toList.isPrefixOf sym.toList then
    let body := sym.toList.drop 5
    if hasEscape body || !body.contains '_' then none
    else
      let rev := body.reverse
      let meth := (rev.takeWhile (fun c => c != '_')).reverse
      let cls := ((rev.dropWhile (fun c => c != '_')).drop 1).reverse
      some (String.mk (cls.map unmangleChar), String.mk meth)
  else none

/-- A method name in the sense of the Java virtual machine: an unqualified name, which
holds none of `.`, `;`, `[`, `/`. -/
def isUnqualifiedName (name : String) : Bool :=
  name.toList.all (fun c => c != '.' && c != ';' && c != '[' && c != '/')

/-- The fourteen bytes of the text, written out. -/
def helloBytes : List Nat :=
  [72, 101, 108, 108, 111, 32, 102, 114, 111, 109, 32, 67, 43, 43]

/-! ## Lemmas on the embedding -/

/-- The buffer `hello.c_str()` points to: the text and its terminator. -/
theorem hello_c_str : (std_string.ofCStr helloLiteral).c_str = helloBytes ++ [0] := by
  decide

/-- What a C-string reader sees at `hello.c_str()`. -/
theorem cstrBytes_hello : cstrBytes (std_string.ofCStr helloLiteral).c_str = helloBytes := by
  decide

/-- A reader of `c_str()` sees the whole `std::string` when it holds no NUL. -/
theorem cstrBytes_c_str (s : std_string) (h : ∀ b ∈ s.data, b ≠ 0) :
    cstrBytes s.c_str = s.data := by
  obtain ⟨data⟩ := s
  simp only [std_string.c_str, cstrBytes] at *
  induction data with
  | nil => simp
  | cons b bs ih =>
    have hb : b ≠ 0 := h b (List.mem_cons_self _ _)
    have hbs : ∀ c ∈ bs, c ≠ 0 := fun c hc => h c (List.mem_cons_of_mem _ hc)
    have hne : (b != 0) = true := by simp [hb]
    rw [List.cons_append, List.takeWhile_cons, hne]
    simp [ih hbs]

/-- A byte in `0x01..0x7F` is decoded on its own as modified UTF-8. -/
theorem decodeMUTF8_cons_ascii (b : Nat) (rest : List Nat) (h : 1 ≤ b ∧ b ≤ 0x7F) :
    decodeMUTF8 (b :: rest) = (decodeMUTF8 rest).map (fun us => b :: us) := by
  have key : ∀ x : Option (List Nat),
      (if 1 ≤ b ∧ b ≤ 0x7F then (decodeMUTF8 rest).map (fun us => b :: us) else x)
        = (decodeMUTF8 rest).map (fun us => b :: us) := fun _ => if_pos h
  rcases rest with _ | ⟨b1, _ | ⟨b2, r2⟩⟩ <;> exact key _

/-- A byte up to `0x7F` is decoded on its own as UTF-8. -/
theorem decodeUTF8_cons_ascii (b : Nat) (rest : List Nat) (h : b ≤ 0x7F) :
    decodeUTF8 (b :: rest) = (decodeUTF8 rest).map (fun cs => b :: cs) := by
  have key : ∀ x : Option (List Nat),
      (if b ≤ 0x7F then (decodeUTF8 rest).map (fun cs => b :: cs) else x)
        = (decodeUTF8 rest).map (fun cs => b :: cs) := fun _ => if_pos h
  rcases rest with _ | ⟨b1, _ | ⟨b2, _ | ⟨b3, r3⟩⟩⟩ <;> exact key _

/-- Bytes in `0x01..0x7F` decode to themselves as modified UTF-8. -/
theorem decodeMUTF8_ascii (bs : List Nat) (h : ∀ b ∈ bs, 1 ≤ b ∧ b ≤ 0x7F) :
    decodeMUTF8 bs = some bs := by
  induction bs with
  | nil => rfl
  | cons b bs ih =>
    have hb := h b (List.mem_cons_self _ _)
    have hbs : ∀ c ∈ bs, 1 ≤ c ∧ c ≤ 0x7F := fun c hc => h c (List.mem_cons_of_mem _ hc)
    rw [decodeMUTF8_cons_ascii b bs hb, ih hbs]
    rfl

/-- Bytes up to `0x7F` decode to themselves as UTF-8. -/
theorem decodeUTF8_ascii (bs : List Nat) (h : ∀ b ∈ bs, b ≤ 0x7F) :
    decodeUTF8 bs = some bs := by
  induction bs with
  | nil => rfl
  | cons b bs ih =>
    have hb := h b (List.mem_cons_self _ _)
    have hbs : ∀ c ∈ bs, c ≤ 0x7F := fun c hc => h c (List.mem_cons_of_mem _ hc)
    rw [decodeUTF8_cons_ascii b bs hb, ih hbs]
    rfl

/-- Scalar values below `0x10000` are their own UTF-16 encoding. -/
theorem toUTF16_bmp (cs : List Nat) (h : ∀ c ∈ cs, c < 0x10000) : toUTF16 cs = cs := by
  induction cs with
  | nil => simp [toUTF16]
  | cons c cs ih =>
    have hc := h c (List.mem_cons_self _ _)
    have hcs : ∀ d ∈ cs, d < 0x10000 := fun d hd => h d (List.mem_cons_of_mem _ hd)
    simp [toUTF16, hc, ih hcs]

/-- The call is the one `NewStringUTF` call on `hello.c_str()`. -/
theorem stringFromJNI_eq {σ : Type} (env : JNIEnv σ) (this : jobject) (st : ProgramState σ) :
    stringFromJNI env this st =
      ((env.NewStringUTF (helloBytes ++ [0]) st.jvm).1,
        { st with jvm := (env.NewStringUTF (helloBytes ++ [0]) st.jvm).2 }) := by
  simp only [Java_com_tanosys_videoapplication_VideoPlayActivity_stringFromJNI, hello_c_str]

/-- A call through a traced environment appends the text to the record. -/
theorem stringFromJNI_traced {σ : Type} (env : JNIEnv σ) (this : jobject) (g : List Nat)
    (s : σ) (log : List (List Nat)) :
    (stringFromJNI (traced env) this ⟨g, (s, log)⟩).2.jvm.2 = log ++ [helloBytes] := by
  rw [stringFromJNI_eq]
  simp only [traced]
  have : cstrBytes (helloBytes ++ [0]) = helloBytes := by decide
  rw [this]

/-- The outcome of the call on the reference runtime with room for one more object. -/
theorem stringFromJNI_jvm_room (this : jobject) (rt : ProgramState JVM)
    (h : rt.jvm.heap.length < rt.jvm.capacity) :
    stringFromJNI jvmEnv this rt =
      (some rt.jvm.heap.length,
        { rt with jvm := { rt.jvm with heap := rt.jvm.heap ++ [HeapObject.string helloBytes] } }) := by
  rw [stringFromJNI_eq]
  have hd : decodeMUTF8 (cstrBytes (helloBytes ++ [0])) = some helloBytes := by decide
  simp only [jvmEnv, JVM.NewStringUTF, hd, if_pos h]

/-- The outcome of the call on the reference runtime with no room left. -/
theorem stringFromJNI_jvm_full (this : jobject) (rt : ProgramState JVM)
    (h : rt.jvm.capacity ≤ rt.jvm.heap.length) :
    stringFromJNI jvmEnv this rt =
      (none, { rt with jvm := { rt.jvm with pending := some "java.lang.OutOfMemoryError" } }) := by
  rw [stringFromJNI_eq]
  have hd : decodeMUTF8 (cstrBytes (helloBytes ++ [0])) = some helloBytes := by decide
  simp only [jvmEnv, JVM.NewStringUTF, hd, if_neg (Nat.not_lt.mpr h)]

/-- The object appended to a heap is found at the old length. -/
theorem stringAt_fresh (j : JVM) (units : List Nat) :
    JVM.stringAt { j with heap := j.heap ++ [HeapObject.string units] } (some j.heap.length)
      = some units := by
  simp [JVM.stringAt]

/-- Every outcome of the call on the reference runtime: `NULL` with no room left, a
fresh reference to the new string otherwise. -/
theorem stringFromJNI_jvm_cases (this : jobject) (rt : ProgramState JVM) :
    (rt.jvm.capacity ≤ rt.jvm.heap.length ∧
      stringFromJNI jvmEnv this rt =
        (none, { rt with jvm := { rt.jvm with pending := some "java.lang.OutOfMemoryError" } }))
    ∨ (rt.jvm.heap.length < rt.jvm.capacity ∧
      stringFromJNI jvmEnv this rt =
        (some rt.jvm.heap.length,
          { rt with jvm := { rt.jvm with heap := rt.jvm.heap ++ [HeapObject.string helloBytes] } })) := by
  rcases Nat.lt_or_ge rt.jvm.heap.length rt.jvm.capacity with h | h
  · exact Or.inr ⟨h, stringFromJNI_jvm_room this rt h⟩
  · exact Or.inl ⟨h, stringFromJNI_jvm_full this rt h⟩

/-- A sequence of calls through traced environments appends the text once per call. -/
theorem runCalls_traced {σ : Type} (calls : List (JNIEnv σ × jobject)) (g : List Nat) (s : σ)
    (log : List (List Nat)) :
    (runCalls (calls.map (fun c => (traced c.1, c.2))) ⟨g, (s, log)⟩).2.jvm.2
      = log ++ List.replicate calls.length helloBytes := by
  induction calls generalizing g s log with
  | nil => simp [runCalls]
  | cons c calls ih =>
    obtain ⟨env, this⟩ := c
    have h1 := stringFromJNI_traced env this g s log
    have h2 := ih (stringFromJNI (traced env) this ⟨g, (s, log)⟩).2.globals
      (stringFromJNI (traced env) this ⟨g, (s, log)⟩).2.jvm.1
      (stringFromJNI (traced env) this ⟨g, (s, log)⟩).2.jvm.2
    simp only [List.map_cons, runCalls, List.length_cons, List.replicate_succ]
    rw [h2, h1]
    simp

/-- A sequence of calls leaves the static storage unchanged. -/
theorem runCalls_globals {σ : Type} (calls : List (JNIEnv σ × jobject)) (st : ProgramState σ) :
    (runCalls calls st).2.globals = st.globals := by
  induction calls generalizing st with
  | nil => rfl
  | cons c calls ih =>
    obtain ⟨env, this⟩ := c
    simp only [runCalls]
    rw [ih]
    rfl

/-- The results of a sequence of calls and its effect on the runtime do not depend on the
static storage. -/
theorem runCalls_globals_irrelevant {σ : Type} (calls : List (JNIEnv σ × jobject))
    (g g' : List Nat) (s : σ) :
    (runCalls calls ⟨g', s⟩).1 = (runCalls calls ⟨g, s⟩).1
    ∧ (runCalls calls ⟨g', s⟩).2.jvm = (runCalls calls ⟨g, s⟩).2.jvm := by
  induction calls generalizing g g' s with
  | nil => exact ⟨rfl, rfl⟩
  | cons c calls ih =>
    obtain ⟨env, this⟩ := c
    have h := ih g g' (env.NewStringUTF (std_string.ofCStr helloLiteral).c_str s).2
    exact ⟨congrArg (List.cons _) h.1, h.2⟩

/-- One result per call. -/
theorem runCalls_length {σ : Type} (calls : List (JNIEnv σ × jobject)) (st : ProgramState σ) :
    (runCalls calls st).1.length = calls.length := by
  induction calls generalizing st with
  | nil => rfl
  | cons c calls ih =>
    obtain ⟨env, this⟩ := c
    simp only [runCalls, List.length_cons]
    rw [ih]

/-- On the reference runtime a sequence of calls only appends to the heap. -/
theorem runCalls_jvm_heap (thises : List jobject) (rt : ProgramState JVM) :
    ∃ extra, (runCalls (thises.map (fun t => (jvmEnv, t))) rt).2.jvm.heap
      = rt.jvm.heap ++ extra := by
  induction thises generalizing rt with
  | nil => exact ⟨[], by simp [runCalls]⟩
  | cons t ts ih =>
    obtain ⟨extra, he⟩ := ih (stringFromJNI jvmEnv t rt).2
    simp only [List.map_cons, runCalls]
    rw [he]
    rcases stringFromJNI_jvm_cases t rt with ⟨_, e⟩ | ⟨_, e⟩
    · exact ⟨extra, by rw [e]⟩
    · exact ⟨HeapObject.string helloBytes :: extra, by rw [e]; simp⟩

/-- A string stays where it is when the heap is extended. -/
theorem stringAt_extend (j j' : JVM) (extra : List HeapObject) (r : jstring)
    (units : List Nat) (hh : j'.heap = j.heap ++ extra) (h : j.stringAt r = some units) :
    j'.stringAt r = some units := by
  cases r with
  | none => simp [JVM.stringAt] at h
  | some i =>
    simp only [JVM.stringAt] at h ⊢
    rw [hh]
    cases hg : j.heap[i]? with
    | none => rw [hg] at h; simp at h
    | some o =>
      have hi : i < j.heap.length := (List.getElem?_eq_some_iff.mp hg).1
      rw [List.getElem?_append_left hi, hg]
      rw [hg] at h
      exact h

/-- On the reference runtime every result of a sequence of calls is `NULL` or denotes,
in the final state, a string with the content of the text. -/
theorem runCalls_jvm_content (thises : List jobject) (rt : ProgramState JVM) :
    ∀ r ∈ (runCalls (thises.map (fun t => (jvmEnv, t))) rt).1,
      r = none ∨ (runCalls (thises.map (fun t => (jvmEnv, t))) rt).2.jvm.stringAt r
        = some helloBytes := by
  induction thises generalizing rt with
  | nil => intro r hr; simp [runCalls] at hr
  | cons t ts ih =>
    intro r hr
    simp only [List.map_cons, runCalls, List.mem_cons] at hr ⊢
    rcases hr with hr | hr
    · obtain ⟨extra, he⟩ := runCalls_jvm_heap ts (stringFromJNI jvmEnv t rt).2
      rcases stringFromJNI_jvm_cases t rt with ⟨_, e⟩ | ⟨_, e⟩
      · exact Or.inl (by rw [hr, e])
      · refine Or.inr ?_
        refine stringAt_extend (stringFromJNI jvmEnv t rt).2.jvm _ extra r helloBytes he ?_
        rw [hr, e]
        exact stringAt_fresh rt.jvm helloBytes
    · exact ih (stringFromJNI jvmEnv t rt).2 r hr

/-- The three shapes of a mangled character: itself, an underscore for the dot, or an
escape sequence. -/
theorem mangleChar_cases (c : Char) :
    (c ≠ '_' ∧ mangleChar c = [c]) ∨ (c = '.' ∧ mangleChar c = ['_'])
    ∨ (∃ d rest, mangleChar c = '_' :: d :: rest ∧ (d = '0' ∨ d = '1' ∨ d = '2' ∨ d = '3')) := by
  unfold mangleChar
  by_cases h1 : c.isAlphanum = true
  · refine Or.inl ⟨?_, by rw [if_pos h1]⟩
    intro hc
    rw [hc] at h1
    exact absurd h1 (by decide)
  · rw [if_neg h1]
    by_cases h2 : c = '.'
    · exact Or.inr (Or.inl ⟨h2, by rw [if_pos h2]⟩)
    · rw [if_neg h2]
      refine Or.inr (Or.inr ?_)
      by_cases h3 : c = '_'
      · exact ⟨'1', [], by rw [if_pos h3], by simp⟩
      · rw [if_neg h3]
        by_cases h4 : c = ';'
        · exact ⟨'2', [], by rw [if_pos h4], by simp⟩
        · rw [if_neg h4]
          by_cases h5 : c = '['
          · exact ⟨'3', [], by rw [if_pos h5], by simp⟩
          · rw [if_neg h5]
            by_cases h6 : c.toNat < 0x10000
            · have hu : toUTF16 [c.toNat] = [c.toNat] := by simp [toUTF16, h6]
              rw [hu]
              exact ⟨'0', _, rfl, Or.inl rfl⟩
            · have hu : toUTF16 [c.toNat]
                  = [0xD800 + (c.toNat - 0x10000) / 0x400, 0xDC00 + (c.toNat - 0x10000) % 0x400] := by
                simp [toUTF16, h6]
              rw [hu]
              exact ⟨'0', _, rfl, Or.inl rfl⟩

/-- One step of the search for an escape sequence. -/
theorem hasEscape_cons (c : Char) (rest : List Char) :
    hasEscape (c :: rest) =
      ((c == '_' && (match rest with
        | d :: _ => d == '0' || d == '1' || d == '2' || d == '3'
        | [] => false)) || hasEscape rest) := by
  cases rest <;> rfl

/-- A mangled name without escape sequences is read back character by character. -/
theorem mangleName_no_escape (xs : List Char) (h : hasEscape (mangleName xs) = false) :
    xs = (mangleName xs).map unmangleChar := by
  induction xs with
  | nil => rfl
  | cons x xs ih =>
    have hcons : mangleName (x :: xs) = mangleChar x ++ mangleName xs := by
      simp [mangleName]
    rw [hcons] at h ⊢
    rcases mangleChar_cases x with ⟨hx, e⟩ | ⟨hx, e⟩ | ⟨d, rest, e, hd⟩
    · rw [e] at h ⊢
      rw [List.singleton_append, hasEscape_cons] at h
      have h2 : hasEscape (mangleName xs) = false := by
        rw [Bool.or_eq_false_iff] at h; exact h.2
      rw [List.singleton_append, List.map_cons, ← ih h2]
      simp [unmangleChar, hx]
    · rw [e] at h ⊢
      rw [List.singleton_append, hasEscape_cons] at h
      have h2 : hasEscape (mangleName xs) = false := by
        rw [Bool.or_eq_false_iff] at h; exact h.2
      rw [List.singleton_append, List.map_cons, ← ih h2, hx]
      simp [unmangleChar]
    · exfalso
      rw [e, List.cons_append, List.cons_append, hasEscape_cons] at h
      rcases hd with hd | hd | hd | hd <;> simp [hd] at h

/-- A list is cut at its last separator in one way only. -/
theorem append_sep_unique {α : Type} (c : α) (xs xs' ys ys' : List α) (hy : c ∉ ys)
    (hy' : c ∉ ys') (h : xs ++ c :: ys = xs' ++ c :: ys') : xs = xs' ∧ ys = ys' := by
  induction xs generalizing xs' with
  | nil =>
    cases xs' with
    | nil => simpa using h
    | cons a t =>
      exfalso
      simp only [List.nil_append, List.cons_append, List.cons.injEq] at h
      exact hy (by rw [h.2]; simp)
  | cons a t ih =>
    cases xs' with
    | nil =>
      exfalso
      simp only [List.nil_append, List.cons_append, List.cons.injEq] at h
      exact hy' (by rw [← h.2]; simp)
    | cons a' t' =>
      simp only [List.cons_append, List.cons.injEq] at h
      obtain ⟨h1, h2⟩ := ih t' h.2
      exact ⟨by rw [h.1, h1], h2⟩

/-- The only class and method name whose short name is the exported symbol. -/
theorem mangle_eq_exportedSymbol (cls meth : String) (hm : isUnqualifiedName meth = true)
    (h : mangle cls meth = exportedSymbol) :
    cls = "com.tanosys.videoapplication.VideoPlayActivity" ∧ meth = "stringFromJNI" := by
  have hdot : '.' ∉ meth.toList := by
    intro hmem
    simp only [isUnqualifiedName, List.all_eq_true] at hm
    have := hm '.' hmem
    simp at this
  have hl : "Java_".toList ++ mangleName cls.toList ++ ['_'] ++ mangleName meth.toList
      = "Java_".toList
        ++ "com_tanosys_videoapplication_VideoPlayActivity_stringFromJNI".toList := by
    have := congrArg String.data h
    exact this
  rw [List.append_assoc, List.append_assoc] at hl
  have hb := List.append_cancel_left hl
  have hj : mangleName (cls.toList ++ '.' :: meth.toList)
      = mangleName cls.toList ++ (['_'] ++ mangleName meth.toList) := by
    have hd : mangleChar '.' = ['_'] := by decide
    simp [mangleName, hd]
  have hne : hasEscape (mangleName (cls.toList ++ '.' :: meth.toList)) = false := by
    rw [hj, hb]; decide
  have hr := mangleName_no_escape _ hne
  rw [hj, hb] at hr
  have hv : ("com_tanosys_videoapplication_VideoPlayActivity_stringFromJNI".toList).map
      unmangleChar
      = "com.tanosys.videoapplication.VideoPlayActivity".toList ++ '.' :: "stringFromJNI".toList := by
    decide
  rw [hv] at hr
  obtain ⟨h1, h2⟩ := append_sep_unique '.' _ _ _ _ hdot (by decide) hr
  exact ⟨String.ext h1, String.ext h2⟩

/-- A sequence of calls returns what the `NewStringUTF` calls on the text return and
leaves the runtime as they leave it. -/
theorem runCalls_newStrings {σ : Type} (calls : List (JNIEnv σ × jobject))
    (st : ProgramState σ) :
    (runCalls calls st).1 = (newStrings (helloBytes ++ [0]) (calls.map Prod.fst) st.jvm).1
    ∧ (runCalls calls st).2.jvm
        = (newStrings (helloBytes ++ [0]) (calls.map Prod.fst) st.jvm).2 := by
  induction calls generalizing st with
  | nil => exact ⟨rfl, rfl⟩
  | cons c calls ih =>
    obtain ⟨env, this⟩ := c
    have h := ih (stringFromJNI env this st).2
    simp only [runCalls, List.map_cons, newStrings]
    rw [h.1, h.2, stringFromJNI_eq]
    exact ⟨rfl, rfl⟩

/-- On the reference runtime with room for one string per call, a sequence of calls
returns fresh references, one after the other, and appends one string per call. -/
theorem runCalls_jvm_room (thises : List jobject) (rt : ProgramState JVM)
    (room : rt.jvm.heap.length + thises.length ≤ rt.jvm.capacity) :
    runCalls (thises.map (fun t => (jvmEnv, t))) rt
      = ((List.range thises.length).map (fun i => some (rt.jvm.heap.length + i)),
          { rt with jvm := { rt.jvm with
              heap := rt.jvm.heap
                ++ List.replicate thises.length (HeapObject.string helloBytes) } }) := by
  induction thises generalizing rt with
  | nil => simp [runCalls]
  | cons t ts ih =>
    have h1 : rt.jvm.heap.length < rt.jvm.capacity := by
      simp only [List.length_cons] at room; omega
    have e := stringFromJNI_jvm_room t rt h1
    have h2 := ih (stringFromJNI jvmEnv t rt).2 (by
      rw [e]; simp only [List.length_append, List.length_cons, List.length_nil] at room ⊢
      omega)
    simp only [List.map_cons, runCalls]
    rw [h2, e]
    simp only [List.length_cons, List.range_succ_eq_map, List.map_cons, List.map_map,
      List.length_append, List.length_nil, List.replicate_succ, List.append_assoc,
      List.singleton_append, Nat.add_zero]
    refine Prod.ext ?_ rfl
    simp only [List.cons.injEq, true_and]
    apply List.map_congr_left
    intro i _
    simp only [Function.comp, Nat.succ_eq_add_one]
    congr 1
    omega

/-- On the reference runtime with room for one string per call, every result of a
sequence of calls denotes, in the final state, a string with the content of the text. -/
theorem runCalls_jvm_room_content (thises : List jobject) (rt : ProgramState JVM)
    (room : rt.jvm.heap.length + thises.length ≤ rt.jvm.capacity) :
    ∀ r ∈ (runCalls (thises.map (fun t => (jvmEnv, t))) rt).1,
      (runCalls (thises.map (fun t => (jvmEnv, t))) rt).2.jvm.stringAt r = some helloBytes := by
  intro r hr
  rcases runCalls_jvm_content thises rt r hr with h | h
  · exfalso
    rw [runCalls_jvm_room thises rt room] at hr
    simp only [List.mem_map] at hr
    obtain ⟨i, _, hi⟩ := hr
    rw [h] at hi
    exact absurd hi (by simp)
  · exact h

/-! ## The claims -/

/-- C1 (counterexample): on the reference runtime with no room at all, the value the
bridge returns denotes no string, so not a string with content "Hello from C++". -/
theorem stringFromJNI_no_string_without_room :
    (stringFromJNI jvmEnv none ⟨[], ⟨[], 0, none⟩⟩).1 = none
    ∧ (stringFromJNI jvmEnv none ⟨[], ⟨[], 0, none⟩⟩).2.jvm.stringAt
        (stringFromJNI jvmEnv none ⟨[], ⟨[], 0, none⟩⟩).1
      ≠ some (codePoints "Hello from C++") := by
  decide

/-- C1 (amended): for every JNI environment, every caller object and every program
state, the text the bridge hands to `NewStringUTF` is byte for byte `'H','e','l','l','o',
' ','f','r','o','m',' ','C','+','+'`, the fourteen characters of "Hello from C++", and
the value returned is the value of that call; whenever the runtime has room to construct
the string, the bridge returns a string whose content is exactly the 14-character text
"Hello from C++". -/
theorem stringFromJNI_text {σ : Type} (env : JNIEnv σ) (this : jobject)
    (st : ProgramState σ) (rt : ProgramState JVM)
    (room : rt.jvm.heap.length < rt.jvm.capacity) :
    (stringFromJNI (traced env) this ⟨st.globals, (st.jvm, [])⟩).2.jvm.2
        = [[72, 101, 108, 108, 111, 32, 102, 114, 111, 109, 32, 67, 43, 43]]
    ∧ [72, 101, 108, 108, 111, 32, 102, 114, 111, 109, 32, 67, 43, 43]
        = ['H', 'e', 'l', 'l', 'o', ' ', 'f', 'r', 'o', 'm', ' ', 'C', '+', '+'].map Char.toNat
    ∧ codePoints "Hello from C++" = [72, 101, 108, 108, 111, 32, 102, 114, 111, 109, 32, 67, 43, 43]
    ∧ (codePoints "Hello from C++").length = 14
    ∧ (stringFromJNI env this st).1
        = (env.NewStringUTF (codePoints "Hello from C++" ++ [0]) st.jvm).1
    ∧ (∃ r : Nat, (stringFromJNI jvmEnv this rt).1 = some r
        ∧ (stringFromJNI jvmEnv this rt).2.jvm.stringAt (stringFromJNI jvmEnv this rt).1
            = some (codePoints "Hello from C++")) := by
  have hcp : codePoints "Hello from C++" = helloBytes := by decide
  refine ⟨?_, by decide, by decide, by decide, ?_, ?_⟩
  · rw [stringFromJNI_traced]; rfl
  · rw [stringFromJNI_eq, hcp]
  · rw [stringFromJNI_jvm_room this rt room, hcp]
    exact ⟨rt.jvm.heap.length, rfl, stringAt_fresh rt.jvm helloBytes⟩

/-- C1 (witness): the amended claim at the reference runtime with one object and room
for three. -/
theorem stringFromJNI_text_witness :
    (1 < 3)
    ∧ (stringFromJNI (traced jvmEnv) (some 0) ⟨[], (⟨[HeapObject.object [2]], 3, none⟩, [])⟩).2.jvm.2
        = [[72, 101, 108, 108, 111, 32, 102, 114, 111, 109, 32, 67, 43, 43]]
    ∧ (∃ r : Nat,
        (stringFromJNI jvmEnv (some 0) ⟨[], ⟨[HeapObject.object [2]], 3, none⟩⟩).1 = some r
        ∧ (stringFromJNI jvmEnv (some 0) ⟨[], ⟨[HeapObject.object [2]], 3, none⟩⟩).2.jvm.stringAt
            (stringFromJNI jvmEnv (some 0) ⟨[], ⟨[HeapObject.object [2]], 3, none⟩⟩).1
          = some (codePoints "Hello from C++")) :=
  have h := stringFromJNI_text jvmEnv (some 0)
    ⟨[], ⟨[HeapObject.object [2]], 3, none⟩⟩ ⟨[], ⟨[HeapObject.object [2]], 3, none⟩⟩ (by decide)
  ⟨by decide, h.1, h.2.2.2.2.2⟩

/-- C2 (counterexample): on the reference runtime with a full heap (two objects, room
for two) the returned value is `NULL`. -/
theorem stringFromJNI_null_value_on_full_heap :
    (stringFromJNI jvmEnv (some 1)
      ⟨[7], ⟨[HeapObject.object [1], HeapObject.string [104, 105]], 2, none⟩⟩).1 = none := by
  decide

/-- C2 (amended): for every call, the byte sequence given to `NewStringUTF` is
non-empty, of length 14, and well-formed both as UTF-8 and as JNI modified UTF-8; both
decodings give the same 14 characters, those of "Hello from C++", whose UTF-8 encoding
the bytes are; the value returned is the value of that `NewStringUTF` call, and whenever
the runtime has room to construct the string it is non-null and denotes a non-empty
string of those 14 characters. -/
theorem stringFromJNI_valid_utf8 {σ : Type} (env : JNIEnv σ) (this : jobject)
    (st : ProgramState σ) (rt : ProgramState JVM)
    (room : rt.jvm.heap.length < rt.jvm.capacity) :
    ∃ bs : List Nat,
      (stringFromJNI (traced env) this ⟨st.globals, (st.jvm, [])⟩).2.jvm.2 = [bs]
      ∧ (stringFromJNI env this st).1 = (env.NewStringUTF (bs ++ [0]) st.jvm).1
      ∧ bs.length = 14 ∧ 0 < bs.length
      ∧ decodeUTF8 bs = some (codePoints "Hello from C++")
      ∧ decodeMUTF8 bs = some (toUTF16 (codePoints "Hello from C++"))
      ∧ (toUTF16 (codePoints "Hello from C++")).length = 14
      ∧ (codePoints "Hello from C++").length = 14
      ∧ "Hello from C++".toUTF8.data.toList.map UInt8.toNat = bs
      ∧ (∃ (r : Nat) (units : List Nat),
          (stringFromJNI jvmEnv this rt).1 = some r
          ∧ (stringFromJNI jvmEnv this rt).2.jvm.stringAt (stringFromJNI jvmEnv this rt).1
              = some units
          ∧ units ≠ [] ∧ units.length = 14
          ∧ decodeMUTF8 bs = some units
          ∧ (decodeUTF8 bs).map toUTF16 = some units) := by
  refine ⟨helloBytes, ?_, ?_, by decide, by decide, by decide, by decide, by decide,
    by decide, by decide, ?_⟩
  · rw [stringFromJNI_traced]; rfl
  · rw [stringFromJNI_eq]
  · rw [stringFromJNI_jvm_room this rt room]
    exact ⟨rt.jvm.heap.length, helloBytes, rfl, stringAt_fresh rt.jvm helloBytes, by decide,
      by decide, by decide, by decide⟩

/-- C2 (witness): the amended claim at the reference runtime with an empty heap and room
for one. -/
theorem stringFromJNI_valid_utf8_witness :
    (0 < 1)
    ∧ (∃ bs : List Nat,
        (stringFromJNI (traced jvmEnv) none ⟨[], (⟨[], 1, none⟩, [])⟩).2.jvm.2 = [bs]
        ∧ bs.length = 14
        ∧ decodeUTF8 bs = some (codePoints "Hello from C++")
        ∧ (∃ (r : Nat) (units : List Nat),
            (stringFromJNI jvmEnv none ⟨[], ⟨[], 1, none⟩⟩).1 = some r
            ∧ (stringFromJNI jvmEnv none ⟨[], ⟨[], 1, none⟩⟩).2.jvm.stringAt
                (stringFromJNI jvmEnv none ⟨[], ⟨[], 1, none⟩⟩).1 = some units
            ∧ units.length = 14)) :=
  match stringFromJNI_valid_utf8 jvmEnv none ⟨[], ⟨[], 1, none⟩⟩ ⟨[], ⟨[], 1, none⟩⟩
      (by decide) with
  | ⟨bs, h1, _, h3, _, h5, _, _, _, _, r, units, h10, h11, _, h13, _⟩ =>
    ⟨by decide, bs, h1, h3, h5, r, units, h10, h11, h13⟩

/-- C5: the caller object is unused: with the same environment and program state, any
two caller objects give the same returned value and the same final state. -/
theorem stringFromJNI_ignores_this {σ : Type} (env : JNIEnv σ) (this1 this2 : jobject)
    (st : ProgramState σ) :
    stringFromJNI env this1 st = stringFromJNI env this2 st := by
  rw [stringFromJNI_eq, stringFromJNI_eq]

/-- C8: the literal holds no NUL and each of its 14 bytes lies in `0x01..0x7F`; the
NUL-terminated view of `hello.c_str()` has exactly the 14 bytes of the `std::string`;
their modified UTF-8 decoding equals the UTF-16 form of their UTF-8 decoding, one code
unit per byte, 14 in total. -/
theorem hello_c_str_lossless :
    0 ∉ (std_string.ofCStr helloLiteral).data
    ∧ (∀ b ∈ (std_string.ofCStr helloLiteral).data, 0x01 ≤ b ∧ b ≤ 0x7F)
    ∧ (std_string.ofCStr helloLiteral).size = 14
    ∧ cstrBytes (std_string.ofCStr helloLiteral).c_str = (std_string.ofCStr helloLiteral).data
    ∧ (cstrBytes (std_string.ofCStr helloLiteral).c_str).length = 14
    ∧ decodeMUTF8 (cstrBytes (std_string.ofCStr helloLiteral).c_str)
        = (decodeUTF8 (cstrBytes (std_string.ofCStr helloLiteral).c_str)).map toUTF16
    ∧ decodeMUTF8 (cstrBytes (std_string.ofCStr helloLiteral).c_str)
        = some (std_string.ofCStr helloLiteral).data
    ∧ (decodeMUTF8 (cstrBytes (std_string.ofCStr helloLiteral).c_str)).map List.length
        = some 14 := by
  refine ⟨by decide, by decide, by decide, by decide, by decide, by decide, by decide,
    by decide⟩

/-- C3 (counterexample): on the reference runtime with a full heap (one object,
room for one) the call returns `NULL` and an `OutOfMemoryError` is pending: the result
is absent, not a string. -/
theorem stringFromJNI_null_on_full_heap :
    stringFromJNI jvmEnv (some 0) ⟨[], ⟨[HeapObject.object []], 1, none⟩⟩
      = (none, ⟨[], ⟨[HeapObject.object []], 1, some "java.lang.OutOfMemoryError"⟩⟩) := by
  decide

/-- C3 (amended): the function has no failure branch of its own: for every input its
result is exactly the result of the one `NewStringUTF` call, `NULL` exactly when that
call returns `NULL`; and whenever the runtime has room for the string, the call
returns a non-null reference to a string with content "Hello from C++" and leaves no
exception pending that was not pending before. -/
theorem stringFromJNI_no_failure_branch {σ : Type} (env : JNIEnv σ) (this : jobject)
    (st : ProgramState σ) (rt : ProgramState JVM)
    (room : rt.jvm.heap.length < rt.jvm.capacity) :
    (stringFromJNI env this st).1
        = (env.NewStringUTF (std_string.ofCStr helloLiteral).c_str st.jvm).1
    ∧ ((stringFromJNI env this st).1 = none
        ↔ (env.NewStringUTF (std_string.ofCStr helloLiteral).c_str st.jvm).1 = none)
    ∧ (∃ r : Nat, (stringFromJNI jvmEnv this rt).1 = some r
        ∧ (stringFromJNI jvmEnv this rt).2.jvm.stringAt (some r)
            = some (codePoints "Hello from C++"))
    ∧ (stringFromJNI jvmEnv this rt).2.jvm.pending = rt.jvm.pending := by
  refine ⟨rfl, Iff.rfl, ?_, ?_⟩
  · refine ⟨rt.jvm.heap.length, ?_, ?_⟩
    · rw [stringFromJNI_jvm_room this rt room]
    · rw [stringFromJNI_jvm_room this rt room]
      have : codePoints "Hello from C++" = helloBytes := by decide
      rw [this]
      exact stringAt_fresh rt.jvm helloBytes
  · rw [stringFromJNI_jvm_room this rt room]

/-- C3 (witness): the amended claim at the reference runtime with one object and room
for four. -/
theorem stringFromJNI_no_failure_branch_witness :
    (1 < 4)
    ∧ (stringFromJNI jvmEnv (some 0) ⟨[], ⟨[HeapObject.object []], 4, none⟩⟩).1
        = (jvmEnv.NewStringUTF (std_string.ofCStr helloLiteral).c_str
            ⟨[HeapObject.object []], 4, none⟩).1
    ∧ (∃ r : Nat,
        (stringFromJNI jvmEnv (some 0) ⟨[], ⟨[HeapObject.object []], 4, none⟩⟩).1 = some r
        ∧ (stringFromJNI jvmEnv (some 0) ⟨[], ⟨[HeapObject.object []], 4, none⟩⟩).2.jvm.stringAt
            (some r) = some (codePoints "Hello from C++")) :=
  have h := stringFromJNI_no_failure_branch jvmEnv (some 0)
    ⟨[], ⟨[HeapObject.object []], 4, none⟩⟩ ⟨[], ⟨[HeapObject.object []], 4, none⟩⟩ (by decide)
  ⟨by decide, h.1, h.2.2.1⟩

/-- C6 (counterexample): on the reference runtime with a full heap the call builds no
string (it returns `NULL` and the heap is as before) and yet changes the state: an
`OutOfMemoryError` is pending afterwards that was not pending before. -/
theorem stringFromJNI_sets_pending_on_full_heap :
    (stringFromJNI jvmEnv (some 0)
      ⟨[1, 2], ⟨[HeapObject.object [5], HeapObject.object []], 2, none⟩⟩).1 = none
    ∧ (stringFromJNI jvmEnv (some 0)
        ⟨[1, 2], ⟨[HeapObject.object [5], HeapObject.object []], 2, none⟩⟩).2.jvm.heap
      = [HeapObject.object [5], HeapObject.object []]
    ∧ (stringFromJNI jvmEnv (some 0)
        ⟨[1, 2], ⟨[HeapObject.object [5], HeapObject.object []], 2, none⟩⟩).2.jvm.pending
      = some "java.lang.OutOfMemoryError"
    ∧ (stringFromJNI jvmEnv (some 0)
        ⟨[1, 2], ⟨[HeapObject.object [5], HeapObject.object []], 2, none⟩⟩).2
      ≠ ⟨[1, 2], ⟨[HeapObject.object [5], HeapObject.object []], 2, none⟩⟩ := by
  decide

/-- C6 (amended): the call has no side effect of its own.  For every environment it
leaves the static storage of the library unchanged and its effect on the runtime is that
of one `NewStringUTF` call on the text (one call is recorded, and recording changes
nothing else); on the reference runtime every object that existed before the call, the
caller object included, is unchanged; and whenever the runtime has room to construct
the string, every piece of state other than the freshly constructed returned string is
unchanged. -/
theorem stringFromJNI_frame {σ : Type} (env : JNIEnv σ) (this : jobject)
    (st : ProgramState σ) (rt : ProgramState JVM)
    (room : rt.jvm.heap.length < rt.jvm.capacity) :
    (stringFromJNI env this st).2.globals = st.globals
    ∧ (stringFromJNI env this st).2.jvm
        = (env.NewStringUTF (std_string.ofCStr helloLiteral).c_str st.jvm).2
    ∧ ((stringFromJNI (traced env) this ⟨st.globals, (st.jvm, [])⟩).2.jvm.2).length = 1
    ∧ (stringFromJNI (traced env) this ⟨st.globals, (st.jvm, [])⟩).1
        = (stringFromJNI env this st).1
    ∧ (stringFromJNI (traced env) this ⟨st.globals, (st.jvm, [])⟩).2.jvm.1
        = (stringFromJNI env this st).2.jvm
    ∧ (stringFromJNI jvmEnv this rt).2.globals = rt.globals
    ∧ (stringFromJNI jvmEnv this rt).2.jvm.capacity = rt.jvm.capacity
    ∧ (stringFromJNI jvmEnv this rt).2.jvm.heap.take rt.jvm.heap.length = rt.jvm.heap
    ∧ (stringFromJNI jvmEnv this rt).1 = some rt.jvm.heap.length
    ∧ (stringFromJNI jvmEnv this rt).2
        = { rt with jvm := { rt.jvm with
              heap := rt.jvm.heap ++ [HeapObject.string (codePoints "Hello from C++")] } }
    ∧ (stringFromJNI jvmEnv this rt).2.jvm.pending = rt.jvm.pending := by
  have hcp : codePoints "Hello from C++" = helloBytes := by decide
  refine ⟨rfl, rfl, ?_, rfl, rfl, rfl, ?_, ?_, ?_, ?_, ?_⟩
  · rw [stringFromJNI_traced]; rfl
  · rw [stringFromJNI_jvm_room this rt room]
  · rw [stringFromJNI_jvm_room this rt room]; simp
  · rw [stringFromJNI_jvm_room this rt room]
  · rw [stringFromJNI_jvm_room this rt room, hcp]
  · rw [stringFromJNI_jvm_room this rt room]

/-- C6 (witness): the amended claim at the reference runtime with two objects and room
for three. -/
theorem stringFromJNI_frame_witness :
    (2 < 3)
    ∧ (stringFromJNI jvmEnv (some 0)
        ⟨[1, 2], ⟨[HeapObject.object [5], HeapObject.object []], 3, none⟩⟩).1 = some 2
    ∧ (stringFromJNI jvmEnv (some 0)
        ⟨[1, 2], ⟨[HeapObject.object [5], HeapObject.object []], 3, none⟩⟩).2
      = ⟨[1, 2], ⟨[HeapObject.object [5], HeapObject.object [],
          HeapObject.string (codePoints "Hello from C++")], 3, none⟩⟩ :=
  have h := stringFromJNI_frame jvmEnv (some 0)
    ⟨[1, 2], ⟨[HeapObject.object [5], HeapObject.object []], 3, none⟩⟩
    ⟨[1, 2], ⟨[HeapObject.object [5], HeapObject.object []], 3, none⟩⟩ (by decide)
  ⟨by decide, h.2.2.2.2.2.2.2.2.1, h.2.2.2.2.2.2.2.2.2.1⟩

/-- C4 (counterexample): three calls on the reference runtime with room for two strings:
the first call returns a string with content "Hello from C++", the third returns `NULL`,
which denotes no string. -/
theorem runCalls_third_call_null :
    (runCalls [(jvmEnv, none), (jvmEnv, none), (jvmEnv, none)] ⟨[], ⟨[], 2, none⟩⟩).1
      = [some 0, some 1, none]
    ∧ (runCalls [(jvmEnv, none), (jvmEnv, none), (jvmEnv, none)] ⟨[], ⟨[], 2, none⟩⟩).1.map
        (runCalls [(jvmEnv, none), (jvmEnv, none), (jvmEnv, none)]
          ⟨[], ⟨[], 2, none⟩⟩).2.jvm.stringAt
      = [some (codePoints "Hello from C++"), some (codePoints "Hello from C++"), none] := by
  decide

/-- C4 (amended): repeated invocation is deterministic and independent of history.  For
every finite sequence of calls, with any environments and caller objects, every call
hands the same text "Hello from C++" to `NewStringUTF`, once per call, and returns the
value of that call; the static storage of the library is neither changed nor read (the
results and the runtime state do not depend on it); and whenever the runtime has room
for one string per call, every call returns a fresh non-null reference and the n-th
call returns the same content as the first call, "Hello from C++". -/
theorem runCalls_same_content {σ : Type} (calls : List (JNIEnv σ × jobject))
    (st : ProgramState σ) (g : List Nat) (thises : List jobject) (rt : ProgramState JVM)
    (room : rt.jvm.heap.length + thises.length ≤ rt.jvm.capacity) :
    (runCalls (calls.map (fun c => (traced c.1, c.2))) ⟨st.globals, (st.jvm, [])⟩).2.jvm.2
        = List.replicate calls.length (codePoints "Hello from C++")
    ∧ (runCalls calls st).1
        = (newStrings (codePoints "Hello from C++" ++ [0]) (calls.map Prod.fst) st.jvm).1
    ∧ (runCalls calls st).2.jvm
        = (newStrings (codePoints "Hello from C++" ++ [0]) (calls.map Prod.fst) st.jvm).2
    ∧ (runCalls calls st).1.length = calls.length
    ∧ (runCalls calls st).2.globals = st.globals
    ∧ (runCalls calls ⟨g, st.jvm⟩).1 = (runCalls calls st).1
    ∧ (runCalls calls ⟨g, st.jvm⟩).2.jvm = (runCalls calls st).2.jvm
    ∧ (runCalls (thises.map (fun t => (jvmEnv, t))) rt).1
        = (List.range thises.length).map (fun i => some (rt.jvm.heap.length + i))
    ∧ (runCalls (thises.map (fun t => (jvmEnv, t))) rt).1.map
          (runCalls (thises.map (fun t => (jvmEnv, t))) rt).2.jvm.stringAt
        = List.replicate thises.length (some (codePoints "Hello from C++"))
    ∧ List.Forall
        (fun r => (runCalls (thises.map (fun t => (jvmEnv, t))) rt).2.jvm.stringAt r
          = (runCalls (thises.map (fun t => (jvmEnv, t))) rt).2.jvm.stringAt
              ((runCalls (thises.map (fun t => (jvmEnv, t))) rt).1.headD none))
        (runCalls (thises.map (fun t => (jvmEnv, t))) rt).1
    ∧ (runCalls (thises.map (fun t => (jvmEnv, t))) rt).2.jvm.pending = rt.jvm.pending := by
  have hcp : codePoints "Hello from C++" = helloBytes := by decide
  have hall := runCalls_jvm_room_content thises rt room
  refine ⟨?_, ?_, ?_, runCalls_length calls st, runCalls_globals calls st,
    (runCalls_globals_irrelevant calls st.globals g st.jvm).1,
    (runCalls_globals_irrelevant calls st.globals g st.jvm).2, ?_, ?_, ?_, ?_⟩
  · rw [runCalls_traced, hcp]; simp
  · rw [hcp]; exact (runCalls_newStrings calls st).1
  · rw [hcp]; exact (runCalls_newStrings calls st).2
  · rw [runCalls_jvm_room thises rt room]
  · rw [hcp, List.eq_replicate_iff]
    refine ⟨?_, ?_⟩
    · rw [List.length_map, runCalls_length, List.length_map]
    · intro b hb
      obtain ⟨r, hr, rfl⟩ := List.mem_map.mp hb
      exact hall r hr
  · rw [List.forall_iff_forall_mem]
    intro r hr
    have hne : (runCalls (thises.map (fun t => (jvmEnv, t))) rt).1 ≠ [] :=
      List.ne_nil_of_mem hr
    have hhead : (runCalls (thises.map (fun t => (jvmEnv, t))) rt).1.headD none
        ∈ (runCalls (thises.map (fun t => (jvmEnv, t))) rt).1 := by
      cases hl : (runCalls (thises.map (fun t => (jvmEnv, t))) rt).1 with
      | nil => exact absurd hl hne
      | cons a l => simp
    rw [hall r hr, hall _ hhead]
  · rw [runCalls_jvm_room thises rt room]

/-- C4 (witness): the amended claim at three calls on the reference runtime with one
object and room for four. -/
theorem runCalls_same_content_witness :
    (1 + 3 ≤ 4)
    ∧ (runCalls ([some 0, none, some 0].map (fun t => (jvmEnv, t)))
        ⟨[], ⟨[HeapObject.object []], 4, none⟩⟩).1
      = (List.range 3).map (fun i => some (1 + i))
    ∧ (runCalls ([some 0, none, some 0].map (fun t => (jvmEnv, t)))
        ⟨[], ⟨[HeapObject.object []], 4, none⟩⟩).1.map
          (runCalls ([some 0, none, some 0].map (fun t => (jvmEnv, t)))
            ⟨[], ⟨[HeapObject.object []], 4, none⟩⟩).2.jvm.stringAt
      = List.replicate 3 (some (codePoints "Hello from C++")) :=
  have h := runCalls_same_content
    [(jvmEnv, some 0), (jvmEnv, none), (jvmEnv, some 0)]
    ⟨[], ⟨[HeapObject.object []], 4, none⟩⟩ [9] [some 0, none, some 0]
    ⟨[], ⟨[HeapObject.object []], 4, none⟩⟩ (by decide)
  ⟨by decide, h.2.2.2.2.2.2.2.1, h.2.2.2.2.2.2.2.2.1⟩

/-- C9: the exported symbol is the JNI short name of the native method `stringFromJNI`
of the class `com.tanosys.videoapplication.VideoPlayActivity`; the name holds no escape
sequence and demangles to that class and method, and no other class name and method
name (an unqualified name) mangle to it. -/
theorem exportedSymbol_is_short_name (cls meth : String)
    (hm : isUnqualifiedName meth = true) :
    mangle "com.tanosys.videoapplication.VideoPlayActivity" "stringFromJNI" = exportedSymbol
    ∧ exportedSymbol = "Java_com_tanosys_videoapplication_VideoPlayActivity_stringFromJNI"
    ∧ hasEscape exportedSymbol.toList = false
    ∧ demangle exportedSymbol
        = some ("com.tanosys.videoapplication.VideoPlayActivity", "stringFromJNI")
    ∧ (mangle cls meth = exportedSymbol
        ↔ cls = "com.tanosys.videoapplication.VideoPlayActivity" ∧ meth = "stringFromJNI") := by
  refine ⟨by decide, rfl, by decide, by decide, ?_, ?_⟩
  · exact mangle_eq_exportedSymbol cls meth hm
  · rintro ⟨rfl, rfl⟩
    decide

/-- C9 (witness): the class and the method of the bridge themselves. -/
theorem exportedSymbol_is_short_name_witness :
    isUnqualifiedName "stringFromJNI" = true
    ∧ (mangle "com.tanosys.videoapplication.VideoPlayActivity" "stringFromJNI" = exportedSymbol
        ↔ "com.tanosys.videoapplication.VideoPlayActivity"
            = "com.tanosys.videoapplication.VideoPlayActivity"
          ∧ "stringFromJNI" = "stringFromJNI") :=
  ⟨by decide,
    (exportedSymbol_is_short_name "com.tanosys.videoapplication.VideoPlayActivity"
      "stringFromJNI" (by decide)).2.2.2.2⟩

end VideoApplication
